import Mathlib

/-!
# Verification of the shipper-release changelog/version core

Shallow embedding of `src/main.rs` of shipperstack/shipper-release.
Rust strings are modelled as `List Char`; line-oriented operations
(`str::split('\n')`, `str::lines()`, `str::trim()`) are translated
directly.  Fallible operations (semver parsing, running external
commands) return `Option`/explicit outcome values.
-/

open List

/-- Characters of a string literal (Rust `&str` contents). -/
def str (s : String) : List Char := s.toList

/-! ## Line splitting and joining

`generate_changelog` uses `String::split('\n')` and `Vec::join("\n")`;
`parse_git_log` and `get_changes` use `str::lines()` (which drops an
optional final line terminator and strips a `'\r'` preceding each `'\n'`).
-/

/-- Worker for `split('\n')`: `acc` holds the current piece reversed. -/
def splitLinesAux : List Char → List Char → List (List Char)
  | [], acc => [acc.reverse]
  | c :: rest, acc =>
    if c = '\n' then acc.reverse :: splitLinesAux rest []
    else splitLinesAux rest (c :: acc)

/-- Rust `String::split('\n')`: pieces between newline separators. -/
def splitNewline (s : List Char) : List (List Char) :=
  splitLinesAux s []

/-- Rust `Vec::<String>::join("\n")`. -/
def joinNewline : List (List Char) → List Char
  | [] => []
  | [l] => l
  | l :: l' :: rest => l ++ '\n' :: joinNewline (l' :: rest)

/-- Strip one trailing `'\r'` (the line was terminated by `"\r\n"`). -/
def stripCR : List Char → List Char
  | [] => []
  | [c] => if c = '\r' then [] else [c]
  | c :: c' :: rest => c :: stripCR (c' :: rest)

/-- Rust `str::lines()`: split on `'\n'`, strip a `'\r'` before each
`'\n'`, and drop the final piece when it is empty (optional final
terminator). -/
def rustLines (s : List Char) : List (List Char) :=
  (splitNewline s).dropLast.map stripCR ++
    (match (splitNewline s).getLast? with
     | some [] => []
     | some l => [l]
     | none => [])

/-- Rust `str::trim()`: drop trailing then leading whitespace. -/
def trimChars (l : List Char) : List Char :=
  ((l.reverse.dropWhile Char.isWhitespace).reverse).dropWhile Char.isWhitespace

/-! ## Commit Log Adapter (`parse_git_log`)

The Rust code matches each line of the raw git log against the
(unanchored) regex `([0-9a-fA-F]+)(.*)` and keeps, for every line where
the regex finds a match, capture group 2 trimmed.  The leftmost match of
that pattern starts at the first hexadecimal character of the line,
group 1 greedily takes the maximal run of hexadecimal characters from
there, and group 2 is the remainder of the line. -/

/-- A hexadecimal character, `[0-9a-fA-F]`. -/
def isHexChar (c : Char) : Bool :=
  c.isDigit || ('a' ≤ c && c ≤ 'f') || ('A' ≤ c && c ≤ 'F')

/-- `pattern.captures(line)` followed by taking group 2 trimmed:
`none` when the regex does not match (no hexadecimal character in the
line). -/
def captureMsg (line : List Char) : Option (List Char) :=
  match line.dropWhile (fun c => !isHexChar c) with
  | [] => none
  | rest => some (trimChars (rest.dropWhile isHexChar))

/-- `parse_git_log`: one trimmed message per line on which the regex
matches, in input order. -/
def parse_git_log (stdout : List Char) : List (List Char) :=
  (rustLines stdout).filterMap captureMsg

/-! ## SemVer Engine (`get_new_version`)

The code uses the `semver` crate.  We model `semver::Version` restricted
to plain `MAJOR.MINOR.PATCH` versions (no pre-release/build metadata),
which is the only shape the claims and the tool's own files use.  Its
components are `u64`: they are carried as `Nat` with the `2^64`
boundary made explicit where it matters — the parser rejects components
that do not fit in a `u64`, and the `+= 1` of `get_new_version` is the
release-build `u64` addition, which wraps around modulo `2^64`
(a debug build would panic at `u64::MAX` instead; either way the
component is never incremented past `u64::MAX`). -/

/-- The number of `u64` values: `semver::Version` components are `u64`. -/
def u64Size : Nat := 2 ^ 64

structure SemVer where
  major : Nat
  minor : Nat
  patch : Nat
deriving DecidableEq, Repr

/-- `get_new_version` on a parsed version: exactly one of the three
flags selects the component to increment; no flag set is the
unreachable `panic!` branch, modelled as `none`.  The increment is the
release-build `u64` `+= 1`, wrapping modulo `2^64`. -/
def get_new_version (v : SemVer) (major minor patch : Bool) : Option SemVer :=
  if major then some { v with major := (v.major + 1) % u64Size }
  else if minor then some { v with minor := (v.minor + 1) % u64Size }
  else if patch then some { v with patch := (v.patch + 1) % u64Size }
  else none

/-- Decimal digits of a natural number. -/
def natChars (n : Nat) : List Char := Nat.toDigits 10 n

/-- `semver::Version` `Display`: `{major}.{minor}.{patch}`. -/
def semverToChars (v : SemVer) : List Char :=
  natChars v.major ++ '.' :: natChars v.minor ++ '.' :: natChars v.patch

/-- Worker for splitting on an arbitrary separator character. -/
def splitCharAux (sep : Char) : List Char → List Char → List (List Char)
  | [], acc => [acc.reverse]
  | c :: rest, acc =>
    if c = sep then acc.reverse :: splitCharAux sep rest []
    else splitCharAux sep rest (c :: acc)

/-- A numeric identifier of `semver`: nonempty digits, no leading zero
(except `0` itself), and small enough for a `u64` — values of `2^64` or
more fail `u64` parsing with an overflow error, which the source's
`unwrap` turns into a panic. -/
def parseNatDigits (l : List Char) : Option Nat :=
  if l ≠ [] ∧ l.all Char.isDigit ∧ (l = ['0'] ∨ l.head? ≠ some '0')
      ∧ l.foldl (fun n c => 10 * n + (c.toNat - '0'.toNat)) 0 < u64Size then
    some (l.foldl (fun n c => 10 * n + (c.toNat - '0'.toNat)) 0)
  else none

/-- `semver::Version::parse` restricted to plain
`MAJOR.MINOR.PATCH` versions. -/
def parseSemVer (s : List Char) : Option SemVer :=
  match splitCharAux '.' s [] with
  | [a, b, c] =>
    match parseNatDigits a, parseNatDigits b, parseNatDigits c with
    | some x, some y, some z => some ⟨x, y, z⟩
    | _, _, _ => none
  | _ => none

/-- Strict version order: (major, then minor, then patch) lexicographic. -/
def semverLt (a b : SemVer) : Prop :=
  a.major < b.major ∨
    (a.major = b.major ∧
      (a.minor < b.minor ∨ (a.minor = b.minor ∧ a.patch < b.patch)))

instance (a b : SemVer) : Decidable (semverLt a b) := by
  unfold semverLt; infer_instance

/-! ## Version Store (`get_last_version`) -/

/-- `BufRead::read_line`: the first line of the file including its
terminating `'\n'` when present. -/
def readFirstLine : List Char → List Char
  | [] => []
  | c :: rest => if c = '\n' then ['\n'] else c :: readFirstLine rest

/-- `get_last_version` on the contents of `version.txt`: first line,
trimmed. -/
def get_last_version (fileContent : List Char) : List Char :=
  trimChars (readFirstLine fileContent)

/-! ## Changelog Document Model (`generate_changelog` loop, `get_changes`) -/

/-- The hardcoded Unreleased-marker prefix tested by
`line.starts_with(..)` in `generate_changelog`. -/
def unreleasedMarker : List Char :=
  str "[Unreleased]: https://github.com/shipperstack/shipper/compare/"

/-- `start_marker` of `get_changes`: `format!("# [{version}] - ")`. -/
def startMarker (version : List Char) : List Char :=
  str "# [" ++ version ++ str "] - "

/-- `end_marker` of `get_changes`:
`format!("[{version}]: https://github.com/shipperstack/shipper/compare/")`. -/
def endMarker (version : List Char) : List Char :=
  str "[" ++ version ++ str "]: https://github.com/shipperstack/shipper/compare/"

/-- The lines pushed by `generate_changelog` in place of a line that
matches `unreleasedMarker`.  `startMarker v ++ today` and
`endMarker v ++ last ++ str "..." ++ v` are character-for-character the
`format!` strings of the source. -/
def releaseBlock (newVersion lastVersion today : List Char)
    (entries : List (List Char)) : List (List Char) :=
  (unreleasedMarker ++ newVersion ++ str "...HEAD")
    :: [] :: []
    :: (startMarker newVersion ++ today)
    :: []
    :: (entries.map (fun msg => str "- " ++ msg)
        ++ [[], endMarker newVersion ++ lastVersion ++ str "..." ++ newVersion])

/-- The line loop of `generate_changelog`: every line that starts with
the Unreleased marker prefix is replaced by the release block; every
other line is pushed unchanged. -/
def insertRelease (newVersion lastVersion today : List Char)
    (entries : List (List Char)) : List (List Char) → List (List Char)
  | [] => []
  | line :: rest =>
    if unreleasedMarker.isPrefixOf line then
      releaseBlock newVersion lastVersion today entries
        ++ insertRelease newVersion lastVersion today entries rest
    else line :: insertRelease newVersion lastVersion today entries rest

/-- The changelog rewrite of `generate_changelog` at the text level:
split the file on `'\n'`, run the loop, join with `"\n"`. -/
def rewrite_changelog (newVersion lastVersion today : List Char)
    (entries : List (List Char)) (content : List Char) : List Char :=
  joinNewline (insertRelease newVersion lastVersion today entries (splitNewline content))

/-- The `generate` pipeline on pure data: version-file contents, raw
git log, changelog contents, today's date, and the three flags; returns
the new changelog text and the new version-file contents, `none` on the
`panic!`/`unwrap` paths. -/
def generate_changelog_model (versionFile gitLogRaw changelog today : List Char)
    (major minor patch : Bool) : Option (List Char × List Char) :=
  let lastVersion := get_last_version versionFile
  match parseSemVer lastVersion with
  | none => none
  | some v =>
    match get_new_version v major minor patch with
    | none => none
    | some w =>
      let newVersion := semverToChars w
      some (rewrite_changelog newVersion lastVersion today
              (parse_git_log gitLogRaw) changelog,
            newVersion)

/-- The scan of `get_changes`: skip until a line starting with
`start_marker` (which is consumed), then accumulate each line followed
by `'\n'`, stopping at the first line starting with `end_marker`
(checked on every line, even before the section starts). -/
def getChangesLoop (startM endM : List Char) :
    List (List Char) → Bool → List Char
  | [], _ => []
  | line :: rest, inSection =>
    if startM.isPrefixOf line then
      getChangesLoop startM endM rest true
    else if endM.isPrefixOf line then
      []
    else if inSection then
      line ++ '\n' :: getChangesLoop startM endM rest inSection
    else
      getChangesLoop startM endM rest inSection

/-- `get_changes`: extract the body of `version`'s section from the
changelog text. -/
def get_changes (version content : List Char) : List Char :=
  getChangesLoop (startMarker version) (endMarker version) (rustLines content) false

/-! ## Release Publisher (`push`)

`push` runs six git commands in sequence via
`Command::status().expect(..)`: `expect` panics only when the command
could not be spawned; the returned `ExitStatus` is discarded. -/

/-- Outcome of `Command::status()`: the process ran and exited with a
code, or it could not be spawned (`Err` from `status()`). -/
inductive CmdOutcome where
  | exited (code : Int)
  | spawnFailure
deriving DecidableEq

/-- The six git invocations of `push`, in source order, as argument
lists. -/
def pushCommands (version changes : String) : List (List String) :=
  [["add", "CHANGELOG.md"],
   ["add", "version.txt"],
   ["commit", "-m", "release: " ++ version ++ "\n\n" ++ changes],
   ["tag", version],
   ["push"],
   ["push", "--tags"]]

/-- Run a command list against a gateway: on a spawn failure the run
aborts (the `expect` panic); an exit status — zero or not — is
discarded and the run continues. -/
def runPush (gw : List String → CmdOutcome) :
    List (List String) → List (List String) × Bool
  | [] => ([], false)
  | c :: rest =>
    match gw c with
    | .spawnFailure => ([], true)
    | .exited _ =>
      let r := runPush gw rest
      (c :: r.1, r.2)

/-- The `push` subcommand on pure data: the executed commands and
whether the run aborted. -/
def push_model (gw : List String → CmdOutcome) (version changes : String) :
    List (List String) × Bool :=
  runPush gw (pushCommands version changes)

/-! ## Basic lemmas about the embedding -/

theorem isPrefixOf_append_self (xs ys : List Char) :
    xs.isPrefixOf (xs ++ ys) = true := by
  induction xs with
  | nil => exact List.isPrefixOf_nil_left
  | cons a as ih => rw [List.cons_append, List.isPrefixOf_cons₂_self]; exact ih

theorem splitLinesAux_ne_nil (s acc : List Char) : splitLinesAux s acc ≠ [] := by
  induction s generalizing acc with
  | nil => simp [splitLinesAux]
  | cons c rest ih =>
    by_cases h : c = '\n' <;> simp [splitLinesAux, h, ih]

theorem joinNewline_splitLinesAux (s acc : List Char) :
    joinNewline (splitLinesAux s acc) = acc.reverse ++ s := by
  induction s generalizing acc with
  | nil => simp [splitLinesAux, joinNewline]
  | cons c rest ih =>
    by_cases h : c = '\n'
    · subst h
      rw [show splitLinesAux ('\n' :: rest) acc = acc.reverse :: splitLinesAux rest []
            from by simp [splitLinesAux]]
      cases h3 : splitLinesAux rest [] with
      | nil => exact absurd h3 (splitLinesAux_ne_nil rest [])
      | cons y ys =>
        rw [show joinNewline (acc.reverse :: y :: ys) = acc.reverse ++ '\n' :: joinNewline (y :: ys)
              from rfl]
        rw [← h3, ih]
        simp
    · rw [show splitLinesAux (c :: rest) acc = splitLinesAux rest (c :: acc)
            from by simp [splitLinesAux, h]]
      rw [ih]
      simp

theorem joinNewline_splitNewline (s : List Char) :
    joinNewline (splitNewline s) = s := by
  simpa using joinNewline_splitLinesAux s []

theorem splitLinesAux_no_newline (l : List Char) (h : '\n' ∉ l) (acc : List Char) :
    splitLinesAux l acc = [acc.reverse ++ l] := by
  induction l generalizing acc with
  | nil => simp [splitLinesAux]
  | cons c rest ih =>
    have hc : ¬ c = '\n' := by rintro rfl; exact h (by simp)
    rw [show splitLinesAux (c :: rest) acc = splitLinesAux rest (c :: acc)
          from by simp [splitLinesAux, hc]]
    rw [ih (fun hm => h (List.mem_cons_of_mem _ hm))]
    simp

theorem splitLinesAux_newline (l : List Char) (h : '\n' ∉ l) (s acc : List Char) :
    splitLinesAux (l ++ '\n' :: s) acc = (acc.reverse ++ l) :: splitLinesAux s [] := by
  induction l generalizing acc with
  | nil => simp [splitLinesAux]
  | cons c rest ih =>
    have hc : ¬ c = '\n' := by rintro rfl; exact h (by simp)
    rw [List.cons_append]
    rw [show splitLinesAux (c :: (rest ++ '\n' :: s)) acc = splitLinesAux (rest ++ '\n' :: s) (c :: acc)
          from by simp [splitLinesAux, hc]]
    rw [ih (fun hm => h (List.mem_cons_of_mem _ hm))]
    simp

theorem splitNewline_joinNewline (ls : List (List Char)) (hne : ls ≠ [])
    (h : ∀ l ∈ ls, '\n' ∉ l) : splitNewline (joinNewline ls) = ls := by
  induction ls with
  | nil => exact absurd rfl hne
  | cons l rest ih =>
    cases rest with
    | nil =>
      rw [show joinNewline [l] = l from rfl]
      unfold splitNewline
      rw [splitLinesAux_no_newline l (h l (by simp)) []]
      simp
    | cons l' rest' =>
      rw [show joinNewline (l :: l' :: rest') = l ++ '\n' :: joinNewline (l' :: rest')
            from rfl]
      unfold splitNewline
      rw [splitLinesAux_newline l (h l (by simp)) _ []]
      have h2 := ih (by simp) (fun x hx => h x (List.mem_cons_of_mem _ hx))
      unfold splitNewline at h2
      rw [h2]
      simp

theorem trimChars_append_newline (l : List Char) :
    trimChars (l ++ ['\n']) = trimChars l := by
  unfold trimChars
  rw [List.reverse_append]
  simp [List.dropWhile_cons, show Char.isWhitespace '\n' = true from rfl]

theorem readFirstLine_no_newline (l : List Char) (h : '\n' ∉ l) :
    readFirstLine l = l := by
  induction l with
  | nil => rfl
  | cons c rest ih =>
    have hc : ¬ c = '\n' := by rintro rfl; exact h (by simp)
    simp [readFirstLine, hc, ih (fun hm => h (List.mem_cons_of_mem _ hm))]

theorem readFirstLine_newline (l rest : List Char) (h : '\n' ∉ l) :
    readFirstLine (l ++ '\n' :: rest) = l ++ ['\n'] := by
  induction l with
  | nil => simp [readFirstLine]
  | cons c l' ih =>
    have hc : ¬ c = '\n' := by rintro rfl; exact h (by simp)
    simp [readFirstLine, hc, ih (fun hm => h (List.mem_cons_of_mem _ hm))]

theorem stripCR_no_cr (l : List Char) (h : '\r' ∉ l) : stripCR l = l := by
  induction l with
  | nil => rfl
  | cons c rest ih =>
    cases rest with
    | nil =>
      have hc : ¬ c = '\r' := by rintro rfl; exact h (by simp)
      simp [stripCR, hc]
    | cons c' rest' =>
      rw [show stripCR (c :: c' :: rest') = c :: stripCR (c' :: rest') from rfl]
      rw [ih (fun hm => h (List.mem_cons_of_mem _ hm))]

/-! ### Structural facts about the changelog markers

`startMarker _` starts with `'#'`, `endMarker _` and `unreleasedMarker`
with `'['`, entry lines with `'-'`; the mismatching head character
settles each prefix test. -/

theorem startMarker_not_dash (v e : List Char) :
    (startMarker v).isPrefixOf ('-' :: e) = false := rfl

theorem endMarker_not_dash (v e : List Char) :
    (endMarker v).isPrefixOf ('-' :: e) = false := rfl

theorem startMarker_not_lbracket (v e : List Char) :
    (startMarker v).isPrefixOf ('[' :: e) = false := rfl

theorem startMarker_not_nil (v : List Char) :
    (startMarker v).isPrefixOf [] = false := rfl

theorem endMarker_not_nil (v : List Char) :
    (endMarker v).isPrefixOf [] = false := rfl

theorem startMarker_not_endMarker (v w z : List Char) :
    (startMarker v).isPrefixOf (endMarker w ++ z) = false := rfl

theorem startMarker_not_unreleased (v w z : List Char) :
    (startMarker v).isPrefixOf (unreleasedMarker ++ w ++ z) = false := rfl

/-! ### Lemmas about `insertRelease` -/

theorem insertRelease_cons_match (nV lV td m : List Char) (es rest : List (List Char))
    (h : unreleasedMarker.isPrefixOf m = true) :
    insertRelease nV lV td es (m :: rest)
      = releaseBlock nV lV td es ++ insertRelease nV lV td es rest := by
  simp [insertRelease, h]

theorem insertRelease_cons_nomatch (nV lV td m : List Char) (es rest : List (List Char))
    (h : unreleasedMarker.isPrefixOf m = false) :
    insertRelease nV lV td es (m :: rest) = m :: insertRelease nV lV td es rest := by
  simp [insertRelease, h]

theorem insertRelease_append_nomatch (nV lV td : List Char) (es pre ds : List (List Char))
    (h : ∀ l ∈ pre, unreleasedMarker.isPrefixOf l = false) :
    insertRelease nV lV td es (pre ++ ds) = pre ++ insertRelease nV lV td es ds := by
  induction pre with
  | nil => rfl
  | cons l ls ih =>
    rw [List.cons_append, insertRelease_cons_nomatch nV lV td l es _ (h l (by simp)),
      ih (fun x hx => h x (List.mem_cons_of_mem _ hx)), List.cons_append]

/-! ### Lemmas about the `get_changes` scan -/

theorem getChangesLoop_skip (sM eM : List Char) (xs ys : List (List Char))
    (h : ∀ l ∈ xs, sM.isPrefixOf l = false ∧ eM.isPrefixOf l = false) :
    getChangesLoop sM eM (xs ++ ys) false = getChangesLoop sM eM ys false := by
  induction xs with
  | nil => rfl
  | cons l ls ih =>
    obtain ⟨h1, h2⟩ := h l (by simp)
    rw [List.cons_append]
    rw [show getChangesLoop sM eM (l :: (ls ++ ys)) false = getChangesLoop sM eM (ls ++ ys) false
          from by simp [getChangesLoop, h1, h2]]
    exact ih (fun x hx => h x (List.mem_cons_of_mem _ hx))

theorem getChangesLoop_header (sM eM td : List Char) (ys : List (List Char)) (b : Bool) :
    getChangesLoop sM eM ((sM ++ td) :: ys) b = getChangesLoop sM eM ys true := by
  simp [getChangesLoop, isPrefixOf_append_self]

theorem getChangesLoop_accum (sM eM : List Char) (xs ys : List (List Char))
    (h : ∀ l ∈ xs, sM.isPrefixOf l = false ∧ eM.isPrefixOf l = false) :
    getChangesLoop sM eM (xs ++ ys) true
      = (xs.map (fun l => l ++ ['\n'])).flatten ++ getChangesLoop sM eM ys true := by
  induction xs with
  | nil => rfl
  | cons l ls ih =>
    obtain ⟨h1, h2⟩ := h l (by simp)
    rw [List.cons_append]
    rw [show getChangesLoop sM eM (l :: (ls ++ ys)) true
          = l ++ '\n' :: getChangesLoop sM eM (ls ++ ys) true
          from by simp [getChangesLoop, h1, h2]]
    rw [ih (fun x hx => h x (List.mem_cons_of_mem _ hx))]
    simp

theorem getChangesLoop_stop (sM eM z : List Char) (ys : List (List Char))
    (hz : sM.isPrefixOf (eM ++ z) = false) :
    getChangesLoop sM eM ((eM ++ z) :: ys) true = [] := by
  simp [getChangesLoop, hz, isPrefixOf_append_self]

/-! ### Character-avoidance lemmas (lines stay newline- and CR-free) -/

theorem releaseBlock_avoid (c : Char) (nV lV td : List Char) (es : List (List Char))
    (hu : c ∉ unreleasedMarker) (hh : c ∉ str "...HEAD") (hs1 : c ∉ str "# [")
    (hs2 : c ∉ str "] - ") (hd2 : c ∉ str "- ") (he1 : c ∉ str "[")
    (he2 : c ∉ str "]: https://github.com/shipperstack/shipper/compare/")
    (hdots : c ∉ str "...")
    (hnV : c ∉ nV) (hlV : c ∉ lV) (htd : c ∉ td) (hes : ∀ e ∈ es, c ∉ e) :
    ∀ l ∈ releaseBlock nV lV td es, c ∉ l := by
  intro l hl
  simp only [releaseBlock, List.mem_cons, List.mem_append, List.mem_map,
    List.mem_singleton] at hl
  rcases hl with rfl | rfl | rfl | rfl | rfl | h | rfl | rfl | h
  · simp only [List.mem_append, not_or]
    exact ⟨⟨hu, hnV⟩, hh⟩
  · simp
  · simp
  · simp only [startMarker, List.mem_append, not_or]
    exact ⟨⟨⟨hs1, hnV⟩, hs2⟩, htd⟩
  · simp
  · obtain ⟨e, he, rfl⟩ := h
    simp only [List.mem_append, not_or]
    exact ⟨hd2, hes e he⟩
  · simp
  · simp only [endMarker, List.mem_append, not_or]
    exact ⟨⟨⟨⟨⟨he1, hnV⟩, he2⟩, hlV⟩, hdots⟩, hnV⟩
  · exact absurd h (List.not_mem_nil l)

theorem insertRelease_avoid (c : Char) (nV lV td : List Char) (es ds : List (List Char))
    (hu : c ∉ unreleasedMarker) (hh : c ∉ str "...HEAD") (hs1 : c ∉ str "# [")
    (hs2 : c ∉ str "] - ") (hd2 : c ∉ str "- ") (he1 : c ∉ str "[")
    (he2 : c ∉ str "]: https://github.com/shipperstack/shipper/compare/")
    (hdots : c ∉ str "...")
    (hnV : c ∉ nV) (hlV : c ∉ lV) (htd : c ∉ td) (hes : ∀ e ∈ es, c ∉ e)
    (hds : ∀ l ∈ ds, c ∉ l) :
    ∀ l ∈ insertRelease nV lV td es ds, c ∉ l := by
  induction ds with
  | nil => simp [insertRelease]
  | cons d rest ih =>
    intro l hl
    cases h : unreleasedMarker.isPrefixOf d with
    | true =>
      rw [insertRelease_cons_match nV lV td d es rest h] at hl
      rcases List.mem_append.mp hl with h2 | h2
      · exact releaseBlock_avoid c nV lV td es hu hh hs1 hs2 hd2 he1 he2 hdots
          hnV hlV htd hes l h2
      · exact ih (fun x hx => hds x (List.mem_cons_of_mem _ hx)) l h2
    | false =>
      rw [insertRelease_cons_nomatch nV lV td d es rest h] at hl
      rcases List.mem_cons.mp hl with rfl | h2
      · exact hds l (by simp)
      · exact ih (fun x hx => hds x (List.mem_cons_of_mem _ hx)) l h2

theorem map_stripCR_id (A : List (List Char)) (h : ∀ l ∈ A, '\r' ∉ l) :
    A.map stripCR = A := by
  induction A with
  | nil => rfl
  | cons a as ih =>
    rw [List.map_cons, stripCR_no_cr a (h a (by simp)),
      ih (fun x hx => h x (List.mem_cons_of_mem _ hx))]

/-- `str::lines()` applied to the joined document recovers every line up
to and including a distinguished nonempty line `cl`; what `lines()` does
to the remaining lines (CR-stripping, dropping a final empty piece) is
irrelevant to callers that stop at `cl`. -/
theorem rustLines_joinNewline_shape (A : List (List Char)) (cl : List Char)
    (tail : List (List Char))
    (hA : ∀ l ∈ A, '\n' ∉ l ∧ '\r' ∉ l)
    (hclne : cl ≠ []) (hcn : '\n' ∉ cl) (hcr : '\r' ∉ cl)
    (htail : ∀ l ∈ tail, '\n' ∉ l) :
    ∃ junk, rustLines (joinNewline (A ++ cl :: tail)) = A ++ cl :: junk := by
  have hsplit : splitNewline (joinNewline (A ++ cl :: tail)) = A ++ cl :: tail := by
    apply splitNewline_joinNewline
    · simp
    · intro l hl
      rcases List.mem_append.mp hl with h | h
      · exact (hA l h).1
      · rcases List.mem_cons.mp h with rfl | h
        · exact hcn
        · exact htail l h
  have hmapA : ∀ B : List (List Char), (∀ l ∈ B, '\r' ∉ l) → B.map stripCR = B :=
    fun B hB => map_stripCR_id B hB
  unfold rustLines
  rw [hsplit]
  cases tail with
  | nil =>
    refine ⟨[], ?_⟩
    rw [List.dropLast_concat, List.getLast?_concat]
    rw [hmapA A (fun l hl => (hA l hl).2)]
    cases cl with
    | nil => exact absurd rfl hclne
    | cons c0 cl' => rfl
  | cons t ts =>
    rw [List.dropLast_append_of_ne_nil A (by simp)]
    rw [show (cl :: t :: ts).dropLast = cl :: (t :: ts).dropLast from rfl]
    rw [List.map_append, List.map_cons]
    rw [hmapA A (fun l hl => (hA l hl).2), stripCR_no_cr cl hcr]
    rw [List.getLast?_append_of_ne_nil A (by simp)]
    rw [show (cl :: t :: ts).getLast? = (t :: ts).getLast? from rfl]
    refine ⟨(t :: ts).dropLast.map stripCR ++
      (match (t :: ts).getLast? with
       | some [] => []
       | some l => [l]
       | none => []), ?_⟩
    simp [List.append_assoc]

theorem startMarker_not_entry (v e : List Char) :
    (startMarker v).isPrefixOf (str "- " ++ e) = false := rfl

theorem endMarker_not_entry (v e : List Char) :
    (endMarker v).isPrefixOf (str "- " ++ e) = false := rfl

theorem endMarker_ne_nil (v : List Char) : endMarker v ≠ [] := by
  unfold endMarker
  apply List.append_ne_nil_of_left_ne_nil
  apply List.append_ne_nil_of_left_ne_nil
  decide

/-- **C1 (amended).**  Inserting a release and then extracting the new
version's section returns the supplied entry lines (each rendered as
`- <entry>`, joined with newline, trailing newline included) *surrounded
by one leading and one trailing blank line* — the two readability blank
lines emitted around the entry list are part of the extracted body.
The document is any line sequence whose lines before its first
Unreleased-marker line contain no header or closing-link line for the
new version, and the new version must not collide with the literal
`Unreleased` marker text. -/
theorem extract_after_insert_eq_blanked_entries
    (pre post : List (List Char)) (m newV lastV today : List Char)
    (entries : List (List Char))
    (hpre : ∀ l ∈ pre, unreleasedMarker.isPrefixOf l = false
      ∧ (startMarker newV).isPrefixOf l = false
      ∧ (endMarker newV).isPrefixOf l = false
      ∧ '\n' ∉ l ∧ '\r' ∉ l)
    (hm : unreleasedMarker.isPrefixOf m = true) (hmn : '\n' ∉ m)
    (hpost : ∀ l ∈ post, '\n' ∉ l)
    (hentries : ∀ e ∈ entries, '\n' ∉ e ∧ '\r' ∉ e)
    (hnewV : '\n' ∉ newV ∧ '\r' ∉ newV)
    (hlastV : '\n' ∉ lastV ∧ '\r' ∉ lastV)
    (htoday : '\n' ∉ today ∧ '\r' ∉ today)
    (hnoU : (endMarker newV).isPrefixOf (unreleasedMarker ++ newV ++ str "...HEAD") = false) :
    get_changes newV
        (rewrite_changelog newV lastV today entries (joinNewline (pre ++ m :: post)))
      = '\n' :: (entries.map (fun e => str "- " ++ e ++ ['\n'])).flatten ++ ['\n'] := by
  have hdocn : ∀ l ∈ pre ++ m :: post, '\n' ∉ l := by
    intro l hl
    rcases List.mem_append.mp hl with h | h
    · exact (hpre l h).2.2.2.1
    · rcases List.mem_cons.mp h with rfl | h
      · exact hmn
      · exact hpost l h
  unfold rewrite_changelog
  rw [splitNewline_joinNewline _ (by simp) hdocn]
  rw [insertRelease_append_nomatch newV lastV today entries pre (m :: post)
    (fun l hl => (hpre l hl).1)]
  rw [insertRelease_cons_match newV lastV today m entries post hm]
  have hre : pre ++ (releaseBlock newV lastV today entries
        ++ insertRelease newV lastV today entries post)
      = (pre ++ (unreleasedMarker ++ newV ++ str "...HEAD")
            :: [] :: [] :: (startMarker newV ++ today) :: []
            :: (entries.map (fun msg => str "- " ++ msg) ++ [[]]))
        ++ (endMarker newV ++ lastV ++ str "..." ++ newV)
          :: insertRelease newV lastV today entries post := by
    simp [releaseBlock, List.append_assoc]
  rw [hre]
  unfold get_changes
  have hA : ∀ l ∈ pre ++ (unreleasedMarker ++ newV ++ str "...HEAD")
        :: [] :: [] :: (startMarker newV ++ today) :: []
        :: (entries.map (fun msg => str "- " ++ msg) ++ [[]]),
      '\n' ∉ l ∧ '\r' ∉ l := by
    intro l hl
    rcases List.mem_append.mp hl with h | h
    · exact ⟨(hpre l h).2.2.2.1, (hpre l h).2.2.2.2⟩
    · simp only [List.mem_cons, List.mem_append, List.mem_map,
        List.mem_singleton] at h
      rcases h with rfl | rfl | rfl | rfl | rfl | h | rfl | h
      · constructor <;>
          · simp only [List.mem_append, not_or]
            exact ⟨⟨by decide, by simp [hnewV.1, hnewV.2]⟩, by decide⟩
      · simp
      · simp
      · constructor <;>
          · simp only [startMarker, List.mem_append, not_or]
            exact ⟨⟨⟨by decide, by simp [hnewV.1, hnewV.2]⟩, by decide⟩,
              by simp [htoday.1, htoday.2]⟩
      · simp
      · obtain ⟨e, he, rfl⟩ := h
        constructor <;>
          · simp only [List.mem_append, not_or]
            exact ⟨by decide, by simp [(hentries e he).1, (hentries e he).2]⟩
      · simp
      · exact absurd h (List.not_mem_nil l)
  have hclne : endMarker newV ++ lastV ++ str "..." ++ newV ≠ [] := by
    apply List.append_ne_nil_of_left_ne_nil
    apply List.append_ne_nil_of_left_ne_nil
    apply List.append_ne_nil_of_left_ne_nil
    exact endMarker_ne_nil newV
  have hcn : '\n' ∉ endMarker newV ++ lastV ++ str "..." ++ newV := by
    simp only [endMarker, List.mem_append, not_or]
    exact ⟨⟨⟨⟨⟨by decide, hnewV.1⟩, by decide⟩, hlastV.1⟩, by decide⟩, hnewV.1⟩
  have hcr : '\r' ∉ endMarker newV ++ lastV ++ str "..." ++ newV := by
    simp only [endMarker, List.mem_append, not_or]
    exact ⟨⟨⟨⟨⟨by decide, hnewV.2⟩, by decide⟩, hlastV.2⟩, by decide⟩, hnewV.2⟩
  have htail : ∀ l ∈ insertRelease newV lastV today entries post, '\n' ∉ l :=
    insertRelease_avoid '\n' newV lastV today entries post
      (by decide) (by decide) (by decide) (by decide) (by decide) (by decide)
      (by decide) (by decide) hnewV.1 hlastV.1 htoday.1
      (fun e he => (hentries e he).1) hpost
  obtain ⟨junk, hshape⟩ := rustLines_joinNewline_shape
    (pre ++ (unreleasedMarker ++ newV ++ str "...HEAD")
      :: [] :: [] :: (startMarker newV ++ today) :: []
      :: (entries.map (fun msg => str "- " ++ msg) ++ [[]]))
    (endMarker newV ++ lastV ++ str "..." ++ newV)
    (insertRelease newV lastV today entries post)
    hA hclne hcn hcr htail
  rw [hshape]
  have hsplit2 : (pre ++ (unreleasedMarker ++ newV ++ str "...HEAD")
        :: [] :: [] :: (startMarker newV ++ today) :: []
        :: (entries.map (fun msg => str "- " ++ msg) ++ [[]]))
      ++ (endMarker newV ++ lastV ++ str "..." ++ newV) :: junk
      = (pre ++ [unreleasedMarker ++ newV ++ str "...HEAD", [], []])
        ++ (startMarker newV ++ today)
          :: (([] :: (entries.map (fun msg => str "- " ++ msg) ++ [[]]))
            ++ (endMarker newV ++ lastV ++ str "..." ++ newV) :: junk) := by
    simp [List.append_assoc]
  rw [hsplit2]
  rw [getChangesLoop_skip (startMarker newV) (endMarker newV)
    (pre ++ [unreleasedMarker ++ newV ++ str "...HEAD", [], []]) _ ?hskip]
  case hskip =>
    intro l hl
    rcases List.mem_append.mp hl with h | h
    · exact ⟨(hpre l h).2.1, (hpre l h).2.2.1⟩
    · simp only [List.mem_cons, List.mem_singleton] at h
      rcases h with rfl | rfl | rfl | h
      · exact ⟨startMarker_not_unreleased newV newV (str "...HEAD"), hnoU⟩
      · exact ⟨startMarker_not_nil newV, endMarker_not_nil newV⟩
      · exact ⟨startMarker_not_nil newV, endMarker_not_nil newV⟩
      · exact absurd h (List.not_mem_nil l)
  rw [getChangesLoop_header]
  rw [getChangesLoop_accum (startMarker newV) (endMarker newV)
    ([] :: (entries.map (fun msg => str "- " ++ msg) ++ [[]])) _ ?haccum]
  case haccum =>
    intro l hl
    simp only [List.mem_cons, List.mem_append, List.mem_map,
      List.mem_singleton] at hl
    rcases hl with rfl | h | rfl | h
    · exact ⟨startMarker_not_nil newV, endMarker_not_nil newV⟩
    · obtain ⟨e, he, rfl⟩ := h
      exact ⟨startMarker_not_entry newV e, endMarker_not_entry newV e⟩
    · exact ⟨startMarker_not_nil newV, endMarker_not_nil newV⟩
    · exact absurd h (List.not_mem_nil l)
  have hcl2 : endMarker newV ++ lastV ++ str "..." ++ newV
      = endMarker newV ++ (lastV ++ (str "..." ++ newV)) := by
    simp [List.append_assoc]
  rw [hcl2, getChangesLoop_stop (startMarker newV) (endMarker newV)
    (lastV ++ (str "..." ++ newV)) junk
    (startMarker_not_endMarker newV newV (lastV ++ (str "..." ++ newV)))]
  simp [List.map_map, Function.comp, List.append_assoc]
  have hfun : ((fun l => l ++ ['\n']) ∘ fun msg => str "- " ++ msg)
      = (fun e => str "- " ++ (e ++ ['\n'])) := by
    funext e
    simp [List.append_assoc]
  rw [hfun]

theorem extract_after_insert_eq_blanked_entries_witness :
    get_changes (str "1.3.3")
        (rewrite_changelog (str "1.3.3") (str "1.2.3") (str "2024-05-05")
          [str "Fix bug", str "Add feature"]
          (joinNewline ([str "# Changelog", []]
            ++ str "[Unreleased]: https://github.com/shipperstack/shipper/compare/1.2.3...HEAD"
              :: [str "- Old change"])))
      = '\n' :: (([str "Fix bug", str "Add feature"].map
          (fun e => str "- " ++ e ++ ['\n'])).flatten) ++ ['\n'] :=
  extract_after_insert_eq_blanked_entries [str "# Changelog", []] [str "- Old change"]
    (str "[Unreleased]: https://github.com/shipperstack/shipper/compare/1.2.3...HEAD")
    (str "1.3.3") (str "1.2.3") (str "2024-05-05") [str "Fix bug", str "Add feature"]
    (by decide) (by decide) (by decide) (by decide) (by decide) (by decide)
    (by decide) (by decide) (by decide)

/-- **C1 (counterexample).**  On a one-line document holding only the
Unreleased marker, inserting version `1.3.3` with the single entry
`Fix bug` and extracting `1.3.3` returns `"\n- Fix bug\n\n"` — the
leading and trailing blank lines of the section body are included — and
not the bare joined entry lines `"- Fix bug\n"` the claim asserts. -/
theorem extract_after_insert_has_blank_lines :
    get_changes (str "1.3.3")
        (rewrite_changelog (str "1.3.3") (str "1.2.3") (str "2024-05-05")
          [str "Fix bug"]
          (str "[Unreleased]: https://github.com/shipperstack/shipper/compare/1.2.3...HEAD"))
      = str "\n- Fix bug\n\n"
    ∧ get_changes (str "1.3.3")
        (rewrite_changelog (str "1.3.3") (str "1.2.3") (str "2024-05-05")
          [str "Fix bug"]
          (str "[Unreleased]: https://github.com/shipperstack/shipper/compare/1.2.3...HEAD"))
      ≠ str "- Fix bug\n" := by
  decide

/-- **C3 (confirmed).**  In place of a line matching the
Unreleased-marker prefix, `generate_changelog` emits exactly: the new
Unreleased marker pointing from the new version to `HEAD`, two blank
lines, the header `# [<newVersion>] - <date>`, a blank line, one
`- <entry>` line per entry in order, a blank line, and the closing link
`[<newVersion>]: <compare base>/<previousVersion>...<newVersion>`. -/
theorem insertRelease_emits_block (newV lastV today m : List Char)
    (entries rest : List (List Char))
    (h : unreleasedMarker.isPrefixOf m = true) :
    insertRelease newV lastV today entries (m :: rest)
      = (str "[Unreleased]: https://github.com/shipperstack/shipper/compare/"
            ++ newV ++ str "...HEAD")
        :: [] :: []
        :: (str "# [" ++ newV ++ str "] - " ++ today)
        :: []
        :: (entries.map (fun e => str "- " ++ e)
            ++ [[], str "[" ++ newV
                  ++ str "]: https://github.com/shipperstack/shipper/compare/"
                  ++ lastV ++ str "..." ++ newV])
        ++ insertRelease newV lastV today entries rest := by
  rw [insertRelease_cons_match newV lastV today m entries rest h]
  rfl

theorem insertRelease_emits_block_witness :
    insertRelease (str "1.3.3") (str "1.2.3") (str "2024-05-05") [str "Fix bug"]
        [str "[Unreleased]: https://github.com/shipperstack/shipper/compare/1.2.3...HEAD"]
      = (str "[Unreleased]: https://github.com/shipperstack/shipper/compare/"
            ++ str "1.3.3" ++ str "...HEAD")
        :: [] :: []
        :: (str "# [" ++ str "1.3.3" ++ str "] - " ++ str "2024-05-05")
        :: []
        :: ([str "Fix bug"].map (fun e => str "- " ++ e)
            ++ [[], str "[" ++ str "1.3.3"
                  ++ str "]: https://github.com/shipperstack/shipper/compare/"
                  ++ str "1.2.3" ++ str "..." ++ str "1.3.3"])
        ++ insertRelease (str "1.3.3") (str "1.2.3") (str "2024-05-05") [str "Fix bug"] [] :=
  insertRelease_emits_block (str "1.3.3") (str "1.2.3") (str "2024-05-05")
    (str "[Unreleased]: https://github.com/shipperstack/shipper/compare/1.2.3...HEAD")
    [str "Fix bug"] [] (by decide)

/-- **C4 (amended).**  `insertRelease` replaces *every* line matching
the Unreleased-marker prefix with the release block, not only the
first: the lines before the first matching line pass through
byte-identical in position, the first matching line becomes the block,
and the remainder of the document is processed by the same rule (so a
later matching line is likewise replaced rather than preserved). -/
theorem insertRelease_replaces_each_marker (newV lastV today m : List Char)
    (entries pre post : List (List Char))
    (hpre : ∀ l ∈ pre, unreleasedMarker.isPrefixOf l = false)
    (hm : unreleasedMarker.isPrefixOf m = true) :
    insertRelease newV lastV today entries (pre ++ m :: post)
      = pre ++ releaseBlock newV lastV today entries
        ++ insertRelease newV lastV today entries post := by
  rw [insertRelease_append_nomatch newV lastV today entries pre (m :: post) hpre,
    insertRelease_cons_match newV lastV today m entries post hm]
  simp [List.append_assoc]

theorem insertRelease_replaces_each_marker_witness :
    insertRelease (str "1.3.3") (str "1.2.3") (str "2024-05-05") [str "Fix bug"]
        ([str "# Changelog"]
          ++ str "[Unreleased]: https://github.com/shipperstack/shipper/compare/1.2.3...HEAD"
            :: [str "- Old change"])
      = [str "# Changelog"] ++ releaseBlock (str "1.3.3") (str "1.2.3") (str "2024-05-05") [str "Fix bug"]
        ++ insertRelease (str "1.3.3") (str "1.2.3") (str "2024-05-05") [str "Fix bug"]
            [str "- Old change"] :=
  insertRelease_replaces_each_marker (str "1.3.3") (str "1.2.3") (str "2024-05-05")
    (str "[Unreleased]: https://github.com/shipperstack/shipper/compare/1.2.3...HEAD")
    [str "Fix bug"] [str "# Changelog"] [str "- Old change"] (by decide) (by decide)

/-- **C4 (counterexample).**  In a document with two Unreleased-marker
lines the claim requires the second one to be passed through
byte-identical; the code replaces it too, so it does not occur in the
output at all. -/
theorem insertRelease_second_marker_not_preserved :
    (str "[Unreleased]: https://github.com/shipperstack/shipper/compare/0.9.0...HEAD")
        ∈ [str "[Unreleased]: https://github.com/shipperstack/shipper/compare/1.2.3...HEAD",
           str "middle",
           str "[Unreleased]: https://github.com/shipperstack/shipper/compare/0.9.0...HEAD"]
    ∧ (str "[Unreleased]: https://github.com/shipperstack/shipper/compare/0.9.0...HEAD")
        ∉ insertRelease (str "1.3.3") (str "1.2.3") (str "2024-05-05") [str "Fix bug"]
            [str "[Unreleased]: https://github.com/shipperstack/shipper/compare/1.2.3...HEAD",
             str "middle",
             str "[Unreleased]: https://github.com/shipperstack/shipper/compare/0.9.0...HEAD"] := by
  decide

/-- **C5 (confirmed).**  When no line of the changelog starts with the
Unreleased-marker prefix, the rewrite returns the document unchanged
byte-for-byte and inserts nothing. -/
theorem rewrite_changelog_no_marker_unchanged (newV lastV today content : List Char)
    (entries : List (List Char))
    (h : ∀ l ∈ splitNewline content, unreleasedMarker.isPrefixOf l = false) :
    rewrite_changelog newV lastV today entries content = content := by
  unfold rewrite_changelog
  have h2 : insertRelease newV lastV today entries (splitNewline content)
      = splitNewline content := by
    have h3 := insertRelease_append_nomatch newV lastV today entries
      (splitNewline content) [] h
    rw [show insertRelease newV lastV today entries ([] : List (List Char)) = []
          from rfl] at h3
    simpa using h3
  rw [h2, joinNewline_splitNewline]

theorem rewrite_changelog_no_marker_unchanged_witness :
    rewrite_changelog (str "1.3.3") (str "1.2.3") (str "2024-05-05") [str "Fix bug"]
        (str "# Changelog\n\nNo marker in this file.\n")
      = str "# Changelog\n\nNo marker in this file.\n" :=
  rewrite_changelog_no_marker_unchanged (str "1.3.3") (str "1.2.3") (str "2024-05-05")
    (str "# Changelog\n\nNo marker in this file.\n") [str "Fix bug"] (by decide)

/-! ### Lemmas about `captureMsg` -/

theorem captureMsg_eq (l : List Char) :
    captureMsg l = if l.any isHexChar
      then some (trimChars ((l.dropWhile (fun c => !isHexChar c)).dropWhile isHexChar))
      else none := by
  induction l with
  | nil => rfl
  | cons c rest ih =>
    cases hc : isHexChar c with
    | true =>
      have hdw : (c :: rest).dropWhile (fun x => !isHexChar x) = c :: rest := by
        simp [List.dropWhile_cons, hc]
      have hany : (c :: rest).any isHexChar = true := by simp [hc]
      rw [hany]
      unfold captureMsg
      rw [hdw]
      rfl
    | false =>
      have hdw : (c :: rest).dropWhile (fun x => !isHexChar x)
          = rest.dropWhile (fun x => !isHexChar x) := by
        simp [List.dropWhile_cons, hc]
      have hany : (c :: rest).any isHexChar = rest.any isHexChar := by simp [hc]
      rw [hany, hdw, ← ih]
      unfold captureMsg
      rw [hdw]

theorem filterMap_captureMsg (ls : List (List Char)) :
    ls.filterMap captureMsg
      = (ls.filter (fun l => l.any isHexChar)).map
          (fun l => trimChars ((l.dropWhile (fun c => !isHexChar c)).dropWhile isHexChar)) := by
  induction ls with
  | nil => rfl
  | cons l rest ih =>
    cases h : l.any isHexChar with
    | true => simp [List.filterMap_cons, List.filter_cons, captureMsg_eq, h, ih]
    | false => simp [List.filterMap_cons, List.filter_cons, captureMsg_eq, h, ih]

/-- **C2 (amended).**  `parse_git_log` yields exactly one message per
line *containing at least one hexadecimal character* (the regex is
unanchored, so it matches anywhere in the line), in input order; the
message is the remainder of the line after the first maximal run of
hexadecimal characters, trimmed.  Only lines with no hexadecimal
character at all are skipped; in particular the malformed line
`not-a-hash-no-message` is *not* skipped and yields the message
`-hash-no-message`. -/
theorem parse_git_log_hex_lines :
    (∀ s : List Char, parse_git_log s
        = ((rustLines s).filter (fun l => l.any isHexChar)).map
            (fun l => trimChars ((l.dropWhile (fun c => !isHexChar c)).dropWhile isHexChar)))
    ∧ parse_git_log (str "not-a-hash-no-message") = [str "-hash-no-message"] :=
  ⟨fun s => filterMap_captureMsg (rustLines s), by decide⟩

/-- **C2 (counterexample).**  The claim says the malformed commit line
`not-a-hash-no-message` produces no extracted message; the unanchored
regex matches at its first hexadecimal character (`a`), so it produces
the message `-hash-no-message`. -/
theorem parse_git_log_not_a_hash_yields_message :
    parse_git_log (str "not-a-hash-no-message") = [str "-hash-no-message"]
    ∧ parse_git_log (str "not-a-hash-no-message") ≠ [] := by
  decide

/-- **C6 (counterexample).**  `18446744073709551615.2.3` is a valid
version string — three dot-separated non-negative integers, and
`semver` parses it, since `u64::MAX` is representable — but a major
bump wraps the `u64` component to zero (release-build `+= 1`; a debug
build panics), so the result's major component is not the input's plus
one and the result is smaller, not strictly greater, than the input. -/
theorem get_new_version_wraps_at_u64_max :
    parseSemVer (str "18446744073709551615.2.3") = some ⟨18446744073709551615, 2, 3⟩
    ∧ get_new_version ⟨18446744073709551615, 2, 3⟩ true false false = some ⟨0, 2, 3⟩
    ∧ ¬ semverLt ⟨18446744073709551615, 2, 3⟩ ⟨0, 2, 3⟩
    ∧ (0 : Nat) ≠ 18446744073709551615 + 1 := by
  decide

/-- **C6 (amended).**  For a parsed version (components below `2^64`,
as the `u64` parser guarantees) and exactly one bump flag,
`get_new_version` increments exactly the targeted component by one —
a major bump does not reset minor or patch — and the result is strictly
greater in (major, minor, patch) lexicographic order, *provided the
targeted component is below `u64::MAX`*; at `u64::MAX` the `u64`
addition wraps to zero instead (debug builds panic). -/
theorem get_new_version_bumps_one_component (v : SemVer) (M m p : Bool)
    (h : (M = true ∧ m = false ∧ p = false) ∨ (M = false ∧ m = true ∧ p = false)
      ∨ (M = false ∧ m = false ∧ p = true))
    (hM : M = true → v.major + 1 < u64Size)
    (hm : m = true → v.minor + 1 < u64Size)
    (hp : p = true → v.patch + 1 < u64Size) :
    ∃ w, get_new_version v M m p = some w ∧ semverLt v w
      ∧ (M = true → w = ⟨v.major + 1, v.minor, v.patch⟩)
      ∧ (m = true → w = ⟨v.major, v.minor + 1, v.patch⟩)
      ∧ (p = true → w = ⟨v.major, v.minor, v.patch + 1⟩) := by
  rcases h with ⟨rfl, rfl, rfl⟩ | ⟨rfl, rfl, rfl⟩ | ⟨rfl, rfl, rfl⟩
  · have hmod : (v.major + 1) % u64Size = v.major + 1 := Nat.mod_eq_of_lt (hM rfl)
    refine ⟨⟨v.major + 1, v.minor, v.patch⟩, ?_, ?_, fun _ => rfl, by simp, by simp⟩
    · show some { v with major := (v.major + 1) % u64Size }
        = some (⟨v.major + 1, v.minor, v.patch⟩ : SemVer)
      rw [hmod]
    · exact Or.inl (Nat.lt_succ_self _)
  · have hmod : (v.minor + 1) % u64Size = v.minor + 1 := Nat.mod_eq_of_lt (hm rfl)
    refine ⟨⟨v.major, v.minor + 1, v.patch⟩, ?_, ?_, by simp, fun _ => rfl, by simp⟩
    · show some { v with minor := (v.minor + 1) % u64Size }
        = some (⟨v.major, v.minor + 1, v.patch⟩ : SemVer)
      rw [hmod]
    · exact Or.inr ⟨rfl, Or.inl (Nat.lt_succ_self _)⟩
  · have hmod : (v.patch + 1) % u64Size = v.patch + 1 := Nat.mod_eq_of_lt (hp rfl)
    refine ⟨⟨v.major, v.minor, v.patch + 1⟩, ?_, ?_, by simp, by simp, fun _ => rfl⟩
    · show some { v with patch := (v.patch + 1) % u64Size }
        = some (⟨v.major, v.minor, v.patch + 1⟩ : SemVer)
      rw [hmod]
    · exact Or.inr ⟨rfl, Or.inr ⟨rfl, Nat.lt_succ_self _⟩⟩

theorem get_new_version_bumps_one_component_witness :
    ∃ w, get_new_version ⟨1, 2, 3⟩ false true false = some w ∧ semverLt ⟨1, 2, 3⟩ w
      ∧ (false = true → w = ⟨2, 2, 3⟩)
      ∧ (true = true → w = ⟨1, 3, 3⟩)
      ∧ (false = true → w = ⟨1, 2, 4⟩) :=
  get_new_version_bumps_one_component ⟨1, 2, 3⟩ false true false (by decide)
    (by decide) (by decide) (by decide)

/-- **C7 (counterexample).**  On the claim's own inputs — version file
`1.2.3`, `--minor`, a document whose Unreleased line uses the generic
`org/repo` URL, and the two commits — the code produces version `1.3.3`
(the semver crate's `minor += 1` does not reset patch), not `1.3.0`,
and the document passes through unchanged because its Unreleased line
does not start with the hardcoded `shipperstack/shipper` compare URL,
so no new section is inserted at all. -/
theorem generate_example_not_claimed_output :
    generate_changelog_model (str "1.2.3") (str "abc123 Fix bug\ndef456 Add feature")
        (str "[Unreleased]: https://github.com/org/repo/compare/1.2.3...HEAD")
        (str "2026-10-12") false true false
      = some (str "[Unreleased]: https://github.com/org/repo/compare/1.2.3...HEAD",
              str "1.3.3")
    ∧ str "1.3.3" ≠ str "1.3.0" := by
  decide

set_option maxRecDepth 100000 in
/-- **C7 (amended).**  With version file `1.2.3`, the `--minor` flag, a
changelog whose Unreleased line uses the hardcoded
`shipperstack/shipper` compare URL, and commit log lines
`abc123 Fix bug` / `def456 Add feature`, the generator produces new
version `1.3.3` and splices in the section `# [1.3.3] - <today>` with
body lines `- Fix bug` and `- Add feature` and closing link
`[1.3.3]: https://github.com/shipperstack/shipper/compare/1.2.3...1.3.3`. -/
theorem generate_example_minor_bump (today : List Char) :
    generate_changelog_model (str "1.2.3") (str "abc123 Fix bug\ndef456 Add feature")
        (str "# Changelog\n\n[Unreleased]: https://github.com/shipperstack/shipper/compare/1.2.3...HEAD\n\n# [1.2.3] - 2024-01-01\n\n- Old change\n\n[1.2.3]: https://github.com/shipperstack/shipper/compare/1.2.2...1.2.3\n")
        today false true false
      = some (str "# Changelog\n\n[Unreleased]: https://github.com/shipperstack/shipper/compare/1.3.3...HEAD\n\n\n# [1.3.3] - "
            ++ today
            ++ str "\n\n- Fix bug\n- Add feature\n\n[1.3.3]: https://github.com/shipperstack/shipper/compare/1.2.3...1.3.3\n\n# [1.2.3] - 2024-01-01\n\n- Old change\n\n[1.2.3]: https://github.com/shipperstack/shipper/compare/1.2.2...1.2.3\n",
          str "1.3.3") := rfl

/-- **C8 (counterexample).**  With a gateway on which `git commit`
exits with status 1 (and every other command with 0), `push` does not
abort: all six commands run to completion, including `tag`, `push` and
`push --tags` after the failed commit — `Command::status().expect(..)`
only panics when the process cannot be spawned and discards the exit
status. -/
theorem push_continues_after_nonzero_exit :
    (fun c => if c = ["commit", "-m", "release: 1.0.0\n\n- Fix\n"]
        then CmdOutcome.exited 1 else CmdOutcome.exited 0)
        ["commit", "-m", "release: 1.0.0\n\n- Fix\n"] = CmdOutcome.exited 1
    ∧ push_model
        (fun c => if c = ["commit", "-m", "release: 1.0.0\n\n- Fix\n"]
          then CmdOutcome.exited 1 else CmdOutcome.exited 0)
        "1.0.0" "- Fix\n"
      = ([["add", "CHANGELOG.md"], ["add", "version.txt"],
          ["commit", "-m", "release: 1.0.0\n\n- Fix\n"], ["tag", "1.0.0"],
          ["push"], ["push", "--tags"]], false) := by
  decide

/-- **C8 (amended).**  A non-zero exit status from a VCS command is
*not* fatal to the run: whenever every command can be spawned, all six
steps execute in order regardless of the exit statuses; `push` aborts
only when spawning a command itself fails. -/
theorem push_runs_all_steps_despite_exit_codes
    (gw : List String → CmdOutcome) (version changes : String)
    (h : ∀ c ∈ pushCommands version changes, gw c ≠ CmdOutcome.spawnFailure) :
    push_model gw version changes = (pushCommands version changes, false) := by
  unfold push_model
  have key : ∀ cs : List (List String),
      (∀ c ∈ cs, gw c ≠ CmdOutcome.spawnFailure) → runPush gw cs = (cs, false) := by
    intro cs
    induction cs with
    | nil => intro _; rfl
    | cons c rest ih =>
      intro hcs
      cases hg : gw c with
      | spawnFailure => exact absurd hg (hcs c (by simp))
      | exited code =>
        have hr := ih (fun x hx => hcs x (List.mem_cons_of_mem _ hx))
        unfold runPush
        rw [hg, hr]
  exact key _ h

theorem push_runs_all_steps_despite_exit_codes_witness :
    push_model (fun _ => CmdOutcome.exited 1) "1.0.0" "- Fix\n"
      = (pushCommands "1.0.0" "- Fix\n", false) :=
  push_runs_all_steps_despite_exit_codes (fun _ => CmdOutcome.exited 1) "1.0.0" "- Fix\n"
    (fun _ _ h => CmdOutcome.noConfusion h)

/-- **C9 (confirmed).**  A commit-log line consisting only of
hexadecimal characters is not skipped: the regex matches the whole line
as the hash, group 2 is empty, and the trimmed message is the empty
string, which the generator's entry rendering turns into the line `- `. -/
theorem parse_git_log_hex_only_line (line : List Char) (h1 : line ≠ [])
    (h2 : ∀ c ∈ line, isHexChar c = true) :
    parse_git_log line = [[]]
    ∧ (parse_git_log line).map (fun msg => str "- " ++ msg) = [str "- "] := by
  have hnn : '\n' ∉ line := fun hm => by
    have := h2 '\n' hm
    exact absurd this (by decide)
  have hcap : captureMsg line = some [] := by
    rw [captureMsg_eq]
    have hany : line.any isHexChar = true := by
      cases line with
      | nil => exact absurd rfl h1
      | cons c cs => simp [h2 c (by simp)]
    have hd1 : line.dropWhile (fun c => !isHexChar c) = line := by
      cases line with
      | nil => rfl
      | cons c cs => simp [List.dropWhile_cons, h2 c (by simp)]
    have hd2 : line.dropWhile isHexChar = [] :=
      List.dropWhile_eq_nil_iff.mpr (fun x hx => h2 x hx)
    rw [hany, hd1, hd2]
    rfl
  have hrl : rustLines line = [line] := by
    unfold rustLines splitNewline
    rw [splitLinesAux_no_newline line hnn []]
    cases line with
    | nil => exact absurd rfl h1
    | cons c cs => rfl
  constructor
  · unfold parse_git_log
    rw [hrl]
    simp [List.filterMap_cons, hcap]
  · unfold parse_git_log
    rw [hrl]
    simp [List.filterMap_cons, hcap]

theorem parse_git_log_hex_only_line_witness :
    parse_git_log (str "abc123") = [[]]
    ∧ (parse_git_log (str "abc123")).map (fun msg => str "- " ++ msg) = [str "- "] :=
  parse_git_log_hex_only_line (str "abc123") (by decide) (by decide)

/-- **C10 (confirmed).**  `get_last_version` uses only the first line
of `version.txt`, trimmed of surrounding whitespace; everything after
the first newline never influences the result. -/
theorem get_last_version_uses_first_line (l rest : List Char) (h : '\n' ∉ l) :
    get_last_version (l ++ '\n' :: rest) = trimChars l
    ∧ get_last_version l = trimChars l := by
  constructor
  · unfold get_last_version
    rw [readFirstLine_newline l rest h, trimChars_append_newline]
  · unfold get_last_version
    rw [readFirstLine_no_newline l h]

theorem get_last_version_uses_first_line_witness :
    get_last_version (str " 1.2.3 " ++ '\n' :: str "ignored\nlines") = trimChars (str " 1.2.3 ")
    ∧ get_last_version (str " 1.2.3 ") = trimChars (str " 1.2.3 ") :=
  get_last_version_uses_first_line (str " 1.2.3 ") (str "ignored\nlines") (by decide)
